import Mathlib

/-!
Verification of the archive-container layer of the modmaps repository.

The definitions below are executable shallow embeddings of the TypeScript
source files:
  * `src/unnamed/part_002`  - ZIP variant with a strict central-directory scan,
  * `src/unnamed/part_003`  - ZIP variant with a tolerant scan and a recursive
    directory-tree builder (`getParentDir`),
  * `src/unnamed/part_004`  - adm-zip backed ZIP variant,
  * `src/packages/clis/parser/game-files/scs-archive-V1.ts` - the ScsV1
    container.

A file is a `List Nat` of byte values (each `< 256` in any real file).
`fs.readSync` into a zero-filled `Buffer.alloc` copies only the bytes
available at the requested position and leaves the tail zero-filled; this is
modelled by reading position-wise with default `0`.
-/

/-- One byte of a file at an absolute position.  Positions past the end read
`0`, exactly the value a short `fs.readSync` leaves in a zero-filled buffer. -/
def byteAt (file : List Nat) (i : Nat) : Nat := file.getD i 0

/-- Embeds `ZipReader.ReadBytes` (part_002 line 72, part_003 line 77): allocate a
zero-filled buffer of `len` bytes and copy whatever bytes exist at `pos`.
The call always succeeds and always returns exactly `len` bytes. -/
def ReadBytes (file : List Nat) (pos len : Nat) : List Nat :=
  (List.range len).map (fun i => byteAt file (pos + i))

/-- Embeds `ZipReader.ReadUInt16LE`: two-byte little-endian read at an absolute
offset (reading via a 2-byte buffer equals reading the file positions
directly, since the buffer is a zero-padded copy of those positions). -/
def readU16LE (file : List Nat) (p : Nat) : Nat :=
  byteAt file p + 256 * byteAt file (p + 1)

/-- Embeds `ZipReader.ReadUInt32LE`: four-byte little-endian read. -/
def readU32LE (file : List Nat) (p : Nat) : Nat :=
  byteAt file p + 256 * byteAt file (p + 1) + 65536 * byteAt file (p + 2) +
    16777216 * byteAt file (p + 3)

/-- Embeds `uint64le` (restructure-helpers): eight-byte little-endian read. -/
def readU64LE (file : List Nat) (p : Nat) : Nat :=
  readU32LE file p + 4294967296 * readU32LE file (p + 4)

/-- Embeds `r.int16le`: signed 16-bit little-endian read. -/
def readI16LE (file : List Nat) (p : Nat) : Int :=
  let v := readU16LE file p
  if v < 32768 then (v : Int) else (v : Int) - 65536

/-- Embeds `r.int32le`: signed 32-bit little-endian read. -/
def readI32LE (file : List Nat) (p : Nat) : Int :=
  let v := readU32LE file p
  if v < 2147483648 then (v : Int) else (v : Int) - 4294967296

/-! ### Node `path.posix` primitives

The source manipulates entry names with Node's `path.dirname` and
`path.basename` (posix flavour, as archive entry names use `/`).  The loops
below are direct transliterations of Node's implementations.  Entry names are
represented as `List Char`. -/

/-- Archive entry paths, as character lists. -/
abbrev EntryPath := List Char

/-- The backward loop of Node `path.posix.dirname`: starting at index
`i` (the argument is `i + 1`; the loop stops before index 0), find the index
of the `/` that terminates the last path segment.  The boolean is Node's
`matchedSlash` flag. -/
def dirnameEnd (cs : EntryPath) : Bool → Nat → Option Nat
  | _, 0 => none
  | matchedSlash, i + 1 =>
    if cs.getD (i + 1) ' ' = '/' then
      if matchedSlash then dirnameEnd cs matchedSlash i else some (i + 1)
    else dirnameEnd cs false i

/-- Node `path.posix.dirname`. -/
def dirname (cs : EntryPath) : EntryPath :=
  if cs.length = 0 then ['.']
  else
    let hasRoot := cs.getD 0 ' ' = '/'
    match dirnameEnd cs true (cs.length - 1) with
    | none => if hasRoot then ['/'] else ['.']
    | some e => if hasRoot ∧ e = 1 then ['/', '/'] else cs.take e

/-- The backward loop of Node `path.posix.basename` (no suffix argument).
The argument `n` means the next index to inspect is `n - 1`; the `Option Nat`
is Node's `end` variable (`none` plays `-1`, and doubles as the
`matchedSlash` flag, which flips exactly when `end` is first set).  Returns
Node's `(start, end)`. -/
def basenameLoop (cs : EntryPath) : Option Nat → Nat → Nat × Option Nat
  | endIdx, 0 => (0, endIdx)
  | endIdx, i + 1 =>
    if cs.getD i ' ' = '/' then
      match endIdx with
      | some _ => (i + 1, endIdx)
      | none => basenameLoop cs endIdx i
    else
      match endIdx with
      | none => basenameLoop cs (some (i + 1)) i
      | some _ => basenameLoop cs endIdx i

/-- Node `path.posix.basename`. -/
def basename (cs : EntryPath) : EntryPath :=
  let r := basenameLoop cs none cs.length
  match r.2 with
  | none => []
  | some e => (cs.take e).drop r.1

/-- The `if (parent === '.') parent = ''` normalisation both tree builders
apply to `path.dirname`'s result. -/
def parentOf (cs : EntryPath) : EntryPath :=
  let d := dirname cs
  if d = ['.'] then [] else d

/-- The chain of proper ancestors of a path: its normalised parent, the
parent's parent, and so on, ending with the root `[]` (fuel-indexed; any
budget above `p.length` is exact). -/
def ancestorChainAux : Nat → EntryPath → List EntryPath
  | 0, _ => []
  | fuel + 1, p =>
    if basename p = [] then [] else parentOf p :: ancestorChainAux fuel (parentOf p)

def ancestorChain (p : EntryPath) : List EntryPath :=
  ancestorChainAux (p.length + 1) p

/-! ### The directory tree -/

/-- Embeds `DirectoryTree` node (part_002 line 353, part_003 line 388): the
`subdirectories` and `files` child-name lists. -/
structure DirNode where
  subdirectories : List EntryPath
  files : List EntryPath
deriving DecidableEq

/-- A JS `Map<string, DirectoryTree>` as an association list in insertion
order. -/
abbrev DirMap := List (EntryPath × DirNode)

def mapGet : DirMap → EntryPath → Option DirNode
  | [], _ => none
  | kv :: rest, k => if kv.1 = k then some kv.2 else mapGet rest k

/-- JS `Map.set`: replace the value in place, or append a new key at the
end. -/
def mapSet : DirMap → EntryPath → DirNode → DirMap
  | [], k, v => [(k, v)]
  | kv :: rest, k, v => if kv.1 = k then (k, v) :: rest else kv :: mapSet rest k v

/-- Embeds `getParentDir` (part_003 lines 367-387), with an explicit recursion
budget: the recursion variable is the normalised parent, whose length
strictly decreases (`parentOf_length_lt`), so any budget above `key.length`
computes the function exactly; `getParentDir` supplies such a budget. -/
def getParentDirAux : Nat → EntryPath → DirNode → DirMap → DirNode × DirMap
  | 0, _, defValue, m => (defValue, m)
  | fuel + 1, key, defValue, m =>
    let parent := parentOf key
    let child := basename key
    let m2 :=
      if child ≠ [] then
        let pr := getParentDirAux fuel parent ⟨[], []⟩ m
        if child ∈ pr.1.subdirectories then pr.2
        else mapSet pr.2 parent ⟨pr.1.subdirectories ++ [child], pr.1.files⟩
      else m
    match mapGet m2 key with
    | some v => (v, m2)
    | none => (defValue, mapSet m2 key defValue)

def getParentDir (key : EntryPath) (defValue : DirNode) (m : DirMap) :
    DirNode × DirMap :=
  getParentDirAux (key.length + 1) key defValue m

/-- The map after `getParentDir`'s recursive phase: the recursive call on the
parent followed by the conditional `subdirectories.push(child)`.  This names
the intermediate map of `getParentDirAux`'s body (`getParentDirAux_succ` is
definitional). -/
def getParentDirRegister (fuel : Nat) (key : EntryPath) (m : DirMap) : DirMap :=
  if basename key ≠ [] then
    if basename key ∈ (getParentDirAux fuel (parentOf key) ⟨[], []⟩ m).1.subdirectories then
      (getParentDirAux fuel (parentOf key) ⟨[], []⟩ m).2
    else
      mapSet (getParentDirAux fuel (parentOf key) ⟨[], []⟩ m).2 (parentOf key)
        ⟨(getParentDirAux fuel (parentOf key) ⟨[], []⟩ m).1.subdirectories ++ [basename key],
          (getParentDirAux fuel (parentOf key) ⟨[], []⟩ m).1.files⟩
  else m

/-- One iteration of part_003's `createDirectoryTree` loop (lines 341-361):
files are pushed unconditionally, subdirectories only when absent. -/
def createDirectoryTreeStep (m : DirMap) (e : EntryPath × Nat) : DirMap :=
  if basename e.1 = [] then m
  else if e.2 > 0 then
    mapSet (getParentDir (parentOf e.1) ⟨[], []⟩ m).2 (parentOf e.1)
      ⟨(getParentDir (parentOf e.1) ⟨[], []⟩ m).1.subdirectories,
        (getParentDir (parentOf e.1) ⟨[], []⟩ m).1.files ++ [basename e.1]⟩
  else if basename e.1 ∈ (getParentDir (parentOf e.1) ⟨[], []⟩ m).1.subdirectories then
    (getParentDir (parentOf e.1) ⟨[], []⟩ m).2
  else
    mapSet (getParentDir (parentOf e.1) ⟨[], []⟩ m).2 (parentOf e.1)
      ⟨(getParentDir (parentOf e.1) ⟨[], []⟩ m).1.subdirectories ++ [basename e.1],
        (getParentDir (parentOf e.1) ⟨[], []⟩ m).1.files⟩

/-- Embeds `createDirectoryTree` (part_003): builds the directory map from the flat
`(fileName, uncompressedSize)` list, synthesising every ancestor through
`getParentDir`. -/
def createDirectoryTree (entries : List (EntryPath × Nat)) : DirMap :=
  entries.foldl createDirectoryTreeStep []

/-- One iteration of part_002's `createDirectoryTree` loop (lines 324-351):
only the immediate parent node is ever created, and there is no ancestor
recursion (`?.` optional chaining is a no-op on an absent key). -/
def createDirectoryTreeV2Step (m : DirMap) (e : EntryPath × Nat) : DirMap :=
  let child := basename e.1
  if child = [] then m
  else
    let parent := parentOf e.1
    let m1 := if (mapGet m parent).isSome then m else mapSet m parent ⟨[], []⟩
    match mapGet m1 parent with
    | some pnode =>
      if e.2 > 0 then mapSet m1 parent ⟨pnode.subdirectories, pnode.files ++ [child]⟩
      else mapSet m1 parent ⟨pnode.subdirectories ++ [child], pnode.files⟩
    | none => m1

/-- Embeds `createDirectoryTree` of part_002. -/
def createDirectoryTreeV2 (entries : List (EntryPath × Nat)) : DirMap :=
  entries.foldl createDirectoryTreeV2Step []

/-- Node growth: every recorded child name is preserved. -/
def nodeLe (v w : DirNode) : Prop :=
  (∀ c ∈ v.subdirectories, c ∈ w.subdirectories) ∧ (∀ c ∈ v.files, c ∈ w.files)

/-- Map growth: present keys stay present and their nodes only grow.  All
operations of the tree builders are `mapLe`-monotone. -/
def mapLe (m m2 : DirMap) : Prop :=
  ∀ k v, mapGet m k = some v → ∃ w, mapGet m2 k = some w ∧ nodeLe v w

/-- The key together with its whole ancestor chain is present in `m`, and
every chain element with a nonempty basename is recorded in its parent's
`subdirectories` list. -/
def keyClosure (m : DirMap) (key : EntryPath) : Prop :=
  ∀ a ∈ key :: ancestorChain key,
    (∃ v, mapGet m a = some v) ∧
    (basename a ≠ [] →
      ∃ v, mapGet m (parentOf a) = some v ∧ basename a ∈ v.subdirectories)

/-! ### `createDirectoryTree` (part_003) satisfies the ancestor invariant -/

/-- Every proper ancestor of `p` is a key of `m`, and every ancestor with a
nonempty basename is recorded in its own parent's `subdirectories`. -/
def chainClosure (m : DirMap) (p : EntryPath) : Prop :=
  ∀ a ∈ ancestorChain p,
    (∃ v, mapGet m a = some v) ∧
    (basename a ≠ [] →
      ∃ v, mapGet m (parentOf a) = some v ∧ basename a ∈ v.subdirectories)

/-! ### ZIP records, entries, stores -/

/-- Embeds `Buffer.toString()` over name bytes (exact for the ASCII names archives
use). -/
def bytesToPath (bs : List Nat) : EntryPath := bs.map (fun b => Char.ofNat b)

/-- Modelled from the spec: `city64` lives in the `scs-archive` module, which
is not among the provided sources.  The spec fixes only that entry identity
is a "deterministic 64-bit hash of its normalized path", a pure function of
the path string; it is modelled as an FNV-1a-style fold reduced modulo 2^64.
Every result below depends only on it being a function of the character
list. -/
def city64 (p : EntryPath) : Nat :=
  p.foldl (fun h c => ((h ^^^ c.toNat) * 1099511628211) % 18446744073709551616)
    14695981039346656037

/-- Modelled from the spec: `createStore` (scs-archive module, not among the
provided sources) builds the "immutable hash- and path-indexed collection of
parsed entries" from an entry list and the header salt (part_002 omits the
salt argument; `0` stands for the omitted value).  The model keeps the data
being indexed. -/
structure EntryStore (α : Type) where
  items : List α
  salt : Int
deriving DecidableEq

def createStore {α : Type} (items : List α) (salt : Int) : EntryStore α :=
  ⟨items, salt⟩

/-- Embeds `CentralDirectoryFileHeader` (part_002/part_003 lines 31-51): the 42
bytes after the 4-byte signature plus the three variable-length trailing
fields; `fileName` and `fileComment` are decoded to text, `extraField` stays
raw. -/
structure CDFH where
  versionMadeBy : Nat
  versionNeeded : Nat
  flags : Nat
  compressedMethod : Nat
  fileModificationTime : Nat
  fileModificationDate : Nat
  crc32 : Nat
  compressedSize : Nat
  uncompressedSize : Nat
  fileNameLength : Nat
  extraFieldLength : Nat
  fileCommentLength : Nat
  diskNr : Nat
  internalAttribs : Nat
  externalAttribs : Nat
  localFileHeaderOffset : Nat
  fileName : EntryPath
  extraField : List Nat
  fileComment : EntryPath
deriving DecidableEq

/-- Parse one central-directory file header whose fixed part sits at `o`
(the signature was read at `o - 4`).  Reading fields out of the 42-byte
buffer equals reading the file positions directly, because the buffer is a
zero-padded copy of exactly those positions. -/
def parseCDFH (file : List Nat) (o : Nat) : CDFH :=
  { versionMadeBy := readU16LE file o
    versionNeeded := readU16LE file (o + 2)
    flags := readU16LE file (o + 4)
    compressedMethod := readU16LE file (o + 6)
    fileModificationTime := readU16LE file (o + 8)
    fileModificationDate := readU16LE file (o + 10)
    crc32 := readU32LE file (o + 12)
    compressedSize := readU32LE file (o + 16)
    uncompressedSize := readU32LE file (o + 20)
    fileNameLength := readU16LE file (o + 24)
    extraFieldLength := readU16LE file (o + 26)
    fileCommentLength := readU16LE file (o + 28)
    diskNr := readU16LE file (o + 30)
    internalAttribs := readU16LE file (o + 32)
    externalAttribs := readU32LE file (o + 34)
    localFileHeaderOffset := readU32LE file (o + 38)
    fileName := bytesToPath (ReadBytes file (o + 42) (readU16LE file (o + 24)))
    extraField := ReadBytes file (o + 42 + readU16LE file (o + 24)) (readU16LE file (o + 26))
    fileComment := bytesToPath (ReadBytes file
      (o + 42 + readU16LE file (o + 24) + readU16LE file (o + 26))
      (readU16LE file (o + 28))) }

inductive EntryKind
  | file
  | directory
deriving DecidableEq

/-- Embeds `createEntry` (part_002 lines 233-241, part_003 lines 255-263): positive
declared uncompressed size selects `ZipArchiveFile`, otherwise
`ZipArchiveDirectory`. -/
def createEntryKind (e : CDFH) : EntryKind :=
  if e.uncompressedSize > 0 then EntryKind.file else EntryKind.directory

inductive ReadError
  | deflateError (code : Nat)
  | unsupported (method : Nat)
deriving DecidableEq

/-- The message text of the `Error`s thrown by part_003's
`ZipArchiveEntry.read` (part_002 prefixes "gdeflate" in the first case; the
unsupported-method text is identical in both variants). -/
def readErrorMessage : ReadError → String
  | ReadError.deflateError c => "deflate error: " ++ toString c
  | ReadError.unsupported m => "unsupported compression type " ++ toString m

/-- The raw payload bytes `ZipArchiveEntry.read` obtains before decompression
(part_002 lines 255-261, part_003 lines 277-283): seek to the local file
header offset plus the fixed 26 bytes, read the local header's own
file-name and extra-field lengths, skip them, then read `compressedSize`
bytes. -/
def zipRawData (file : List Nat) (e : CDFH) : List Nat :=
  ReadBytes file
    (e.localFileHeaderOffset + 30 + readU16LE file (e.localFileHeaderOffset + 26)
      + readU16LE file (e.localFileHeaderOffset + 28))
    e.compressedSize

/-- Embeds `ZipArchiveEntry.read` of part_002 (lines 255-284): the `gdeflate` native
path.  `rawData.buffer.slice(TileStreamHeader.size())` drops the tile-stream
header; the header's size comes from the `scs-archive` module, which is not
among the provided sources, so it is the parameter `tshSize`.  The native
primitive is a parameter mapping input bytes and output-buffer size to a
status code and the output; nonzero status throws.  The second component
records the bytes handed to the primitive (`none` when it was not invoked). -/
def zipRead2 (gdeflate : List Nat → Nat → Nat × List Nat) (tshSize : Nat)
    (file : List Nat) (e : CDFH) :
    Except ReadError (List Nat) × Option (List Nat) :=
  if e.compressedMethod = 8 then
    if (gdeflate ((zipRawData file e).drop tshSize) e.uncompressedSize).1 ≠ 0 then
      (Except.error (ReadError.deflateError
          (gdeflate ((zipRawData file e).drop tshSize) e.uncompressedSize).1),
        some ((zipRawData file e).drop tshSize))
    else
      (Except.ok (gdeflate ((zipRawData file e).drop tshSize) e.uncompressedSize).2,
        some ((zipRawData file e).drop tshSize))
  else if e.compressedMethod = 0 then
    (Except.ok (zipRawData file e), none)
  else
    (Except.error (ReadError.unsupported e.compressedMethod), none)

/-- Embeds `ZipArchiveEntry.read` of part_003 (lines 277-305): the `deflate` native
path; the whole `rawData.buffer` is passed, nothing is stripped. -/
def zipRead3 (deflate : List Nat → Nat → Nat × List Nat)
    (file : List Nat) (e : CDFH) :
    Except ReadError (List Nat) × Option (List Nat) :=
  if e.compressedMethod = 8 then
    if (deflate (zipRawData file e) e.uncompressedSize).1 ≠ 0 then
      (Except.error (ReadError.deflateError
          (deflate (zipRawData file e) e.uncompressedSize).1),
        some (zipRawData file e))
    else
      (Except.ok (deflate (zipRawData file e) e.uncompressedSize).2,
        some (zipRawData file e))
  else if e.compressedMethod = 0 then
    (Except.ok (zipRawData file e), none)
  else
    (Except.error (ReadError.unsupported e.compressedMethod), none)

/-! ### EOCD location and central-directory scanning -/

/-- The backward loop of `FindEndHeaderOffset`: the argument `n` means the
next index to test is `n - 1`; a candidate low byte `0x50` has its full
4-byte value verified before being accepted. -/
def scanBackAux (buf : List Nat) : Nat → Option Nat
  | 0 => none
  | i + 1 =>
    if byteAt buf i ≠ 0x50 then scanBackAux buf i
    else if readU32LE buf i = 0x06054b50 then some i
    else scanBackAux buf i

/-- Embeds `ZipArchive.FindEndHeaderOffset` (part_002 lines 211-226, part_003 lines
233-248): read the last `min(22 + 0xffff, fileSize)` bytes and scan backward
from 22 bytes before the end for the end-of-central-directory signature.
`none` models both the `-1` return and the failed `assert(fileSize > 0)`
(the constructor asserts the result is nonnegative either way). -/
def FindEndHeaderOffset (file : List Nat) : Option Nat :=
  if file.length = 0 then none
  else if min (22 + 0xffff) file.length < 22 then none
  else
    match scanBackAux
        (ReadBytes file (file.length - min (22 + 0xffff) file.length)
          (min (22 + 0xffff) file.length))
        (min (22 + 0xffff) file.length - 22 + 1) with
    | some i => some (file.length - min (22 + 0xffff) file.length + i)
    | none => none

/-- part_003's central-directory while-loop (lines 154-173), fuel-indexed:
each iteration consumes at least 46 bytes (4-byte signature plus the 42-byte
fixed header), so the `endPos - offset + 1` budget supplied by `scanCD3`
never runs out.  Also counts the `fs.readSync` calls (five per record:
signature, fixed header, three variable fields).  An unexpected signature
stops the scan, keeping the records read so far. -/
def scanCD3Aux (file : List Nat) (endPos : Nat) :
    Nat → Nat → List CDFH → Nat → List CDFH × Nat
  | 0, _, acc, reads => (acc, reads)
  | fuel + 1, offset, acc, reads =>
    if offset < endPos then
      if readU32LE file offset = 0x02014b50 then
        scanCD3Aux file endPos fuel
          (offset + 46 + (parseCDFH file (offset + 4)).fileNameLength
            + (parseCDFH file (offset + 4)).extraFieldLength
            + (parseCDFH file (offset + 4)).fileCommentLength)
          (acc ++ [parseCDFH file (offset + 4)]) (reads + 5)
      else (acc, reads)
    else (acc, reads)

def scanCD3 (file : List Nat) (endPos offset : Nat) : List CDFH × Nat :=
  scanCD3Aux file endPos (endPos - offset + 1) offset [] 0

/-- part_002's central-directory while-loop (lines 140-158): an unexpected
signature hits `assert(signature === Signature.CentralDirectoryFileHeader)`,
which throws - modelled by `Except.error ()`. -/
def scanCD2Aux (file : List Nat) (endPos : Nat) :
    Nat → Nat → List CDFH → Except Unit (List CDFH)
  | 0, _, acc => Except.ok acc
  | fuel + 1, offset, acc =>
    if offset < endPos then
      if readU32LE file offset = 0x02014b50 then
        scanCD2Aux file endPos fuel
          (offset + 46 + (parseCDFH file (offset + 4)).fileNameLength
            + (parseCDFH file (offset + 4)).extraFieldLength
            + (parseCDFH file (offset + 4)).fileCommentLength)
          (acc ++ [parseCDFH file (offset + 4)])
      else Except.error ()
    else Except.ok acc

def scanCD2 (file : List Nat) (endPos offset : Nat) : Except Unit (List CDFH) :=
  scanCD2Aux file endPos (endPos - offset + 1) offset []

/-! ### The two ZIP `parseEntries` implementations -/

/-- JS `String.split('/')`. -/
def splitOnSlash (p : EntryPath) : List EntryPath :=
  p.foldr (fun c acc =>
    if c = '/' then [] :: acc else (c :: acc.headD []) :: acc.tail) [[]]

/-- JS `Array.join('/')`. -/
def joinSlash : List EntryPath → EntryPath
  | [] => []
  | [x] => x
  | x :: xs => x ++ '/' :: joinSlash xs

/-- part_003 lines 176-181: the PL-rebuild / dlcsupport root trimming drops
the first path segment of every name containing a `/`
(`fileName.split('/').slice(1).join('/')`). -/
def stripRootSegment (p : EntryPath) : EntryPath :=
  if ('/' : Char) ∈ p then joinSlash ((splitOnSlash p).drop 1) else p

/-- part_002 lines 190-195: a name ending in `/` loses that final character
(`substring(0, lastIndexOf('/'))`, and the last `/` is the final
character). -/
def stripTrailingSlash (p : EntryPath) : EntryPath :=
  if p.getLast? = some '/' then p.dropLast else p

/-- A parsed directory entry, as exposed by `ZipArchiveDirectory`: name,
`city64` hash of that name, and the child-name lists copied from the
directory tree (empty when the tree has no node for the name). -/
structure ZDirectoryEntry where
  fileName : EntryPath
  hash : Nat
  subdirectories : List EntryPath
  files : List EntryPath
deriving DecidableEq

/-- A parsed file entry (`ZipArchiveFile`): its header and the `city64` hash
of its name. -/
structure ZFileEntry where
  header : CDFH
  hash : Nat
deriving DecidableEq

/-- The `Entries` pair both ZIP variants return. -/
structure ZEntries where
  directories : EntryStore ZDirectoryEntry
  files : EntryStore ZFileEntry
deriving DecidableEq

/-- Embeds `Preconditions.checkState` failures and `assert` failures. -/
inductive ZipError
  | precondition
  | assertion
deriving DecidableEq

/-- Embeds `new ZipArchiveDirectory(reader, entry, directoryTree)`
(part_002 lines 300-330, part_003 lines 325-347). -/
def mkZipDirectoryEntry (tree : DirMap) (name : EntryPath) : ZDirectoryEntry :=
  { fileName := name
    hash := city64 name
    subdirectories := ((mapGet tree name).getD ⟨[], []⟩).subdirectories
    files := ((mapGet tree name).getD ⟨[], []⟩).files }

/-- Embeds `new ZipArchiveFile(reader, entry)`. -/
def mkZipFileEntry (e : CDFH) : ZFileEntry :=
  { header := e, hash := city64 e.fileName }

/-- part_003 `ZipArchive` state: file bytes, the root-trimming flags the
constructor derives from the archive path, the EOCD record's
central-directory offset and size, and the memoised `entries`. -/
structure ZipArchive3 where
  file : List Nat
  isPLrebuild : Bool
  isDlcSupport : Bool
  cdOffset : Nat
  cdSize : Nat
  entries : Option ZEntries
deriving DecidableEq

/-- part_003 `ZipArchive.isValid` (lines 141-143): constantly true. -/
def ZipArchive3.isValid (_ : ZipArchive3) : Bool := true

def zip3Headers (a : ZipArchive3) : List CDFH × Nat :=
  scanCD3 a.file (a.cdOffset + a.cdSize) a.cdOffset

def zip3AdjustedHeaders (a : ZipArchive3) : List CDFH :=
  if a.isPLrebuild || a.isDlcSupport then
    (zip3Headers a).1.map (fun h => { h with fileName := stripRootSegment h.fileName })
  else (zip3Headers a).1

def zip3Tree (a : ZipArchive3) : DirMap :=
  createDirectoryTree
    ((zip3AdjustedHeaders a).map (fun h => (h.fileName, h.uncompressedSize)))

/-- The `Entries` part_003's `parseEntries` computes on a cache miss: one
directory entry per key of the directory tree (in insertion order; the
synthetic record has uncompressed size 0, so `createEntry` always yields a
directory), and one file entry per record with positive uncompressed size. -/
def zip3Compute (a : ZipArchive3) : ZEntries :=
  { directories := createStore
      ((zip3Tree a).map (fun kv => mkZipDirectoryEntry (zip3Tree a) kv.1)) 0
    files := createStore
      (((zip3AdjustedHeaders a).filter
        (fun h => decide (h.uncompressedSize ≠ 0))).map mkZipFileEntry) 0 }

/-- Embeds `ZipArchive.parseEntries` of part_003 (lines 145-231): precondition
check, memoisation, tolerant scan, directory synthesis from tree keys.  The
`Nat` is the number of `fs.readSync` calls the invocation makes (0 on a
cache hit). -/
def ZipArchive3.parseEntries (a : ZipArchive3) :
    Except ZipError (ZEntries × ZipArchive3 × Nat) :=
  if a.isValid = true then
    match a.entries with
    | some e => Except.ok (e, a, 0)
    | none =>
      Except.ok (zip3Compute a, { a with entries := some (zip3Compute a) },
        (zip3Headers a).2)
  else Except.error ZipError.precondition

/-- part_002 `ZipArchive` state. -/
structure ZipArchive2 where
  file : List Nat
  cdOffset : Nat
  cdSize : Nat
  entries : Option ZEntries
deriving DecidableEq

/-- part_002 `ZipArchive.isValid` (lines 127-129): constantly true. -/
def ZipArchive2.isValid (_ : ZipArchive2) : Bool := true

def zip2Tree (hdrs : List CDFH) : DirMap :=
  createDirectoryTreeV2 (hdrs.map (fun h => (h.fileName, h.uncompressedSize)))

/-- part_002 lines 188-196: every entry's name is trimmed of a trailing
slash before `createEntry` (after the tree was built from untrimmed
names). -/
def zip2Adjusted (hdrs : List CDFH) : List CDFH :=
  hdrs.map (fun h => { h with fileName := stripTrailingSlash h.fileName })

/-- The `Entries` part_002's `parseEntries` computes on a cache miss: the
synthetic top-level directory entry (empty name, uncompressed size 0, hence
always a directory), then a directory entry per zero-size record and a file
entry per positive-size record, in record order. -/
def zip2Compute (hdrs : List CDFH) : ZEntries :=
  { directories := createStore
      (mkZipDirectoryEntry (zip2Tree hdrs) []
        :: ((zip2Adjusted hdrs).filter (fun h => decide (h.uncompressedSize = 0))).map
            (fun h => mkZipDirectoryEntry (zip2Tree hdrs) h.fileName)) 0
    files := createStore
      (((zip2Adjusted hdrs).filter (fun h => decide (h.uncompressedSize ≠ 0))).map
        mkZipFileEntry) 0 }

/-- Embeds `ZipArchive.parseEntries` of part_002 (lines 131-208): like part_003 but
with the strict scan, whose `assert` makes an unexpected signature fatal for
the whole archive. -/
def ZipArchive2.parseEntries (a : ZipArchive2) :
    Except ZipError (ZEntries × ZipArchive2) :=
  if a.isValid = true then
    match a.entries with
    | some e => Except.ok (e, a)
    | none =>
      match scanCD2 a.file (a.cdOffset + a.cdSize) a.cdOffset with
      | Except.error _ => Except.error ZipError.assertion
      | Except.ok hdrs =>
        Except.ok (zip2Compute hdrs, { a with entries := some (zip2Compute hdrs) })
  else Except.error ZipError.precondition

/-! ### part_004 (adm-zip) entries -/

/-- An adm-zip `IZipEntry` as used by part_004: its `entryName` and directory
flag. -/
structure Zip4Entry where
  entryName : EntryPath
  isDirectory : Bool
deriving DecidableEq

/-- Embeds `ZipArchiveEntry.hash` of part_004 (lines 65-67): the `city64` hash of
`path.dirname(entryName)` - the parent directory - not of the entry's own
name. -/
def zip4Hash (e : Zip4Entry) : Nat :=
  city64 (dirname e.entryName)

/-- Embeds `ZipArchiveEntry.hash` of part_002 (lines 252-254) and part_003 (lines
273-275): the `city64` hash of the entry's own `fileName`, whatever the
other attributes are. -/
def zip3Hash (e : CDFH) : Nat :=
  city64 e.fileName

/-! ### The ScsV1 container (scs-archive-V1.ts) -/

/-- Embeds `FileHeaderV1` (lines 10-17): field reads of the 20-byte header at offset
0 of the archive. -/
def v1Magic (file : List Nat) : EntryPath := bytesToPath (ReadBytes file 0 4)

def v1Version (file : List Nat) : Int := readI16LE file 4

def v1Salt (file : List Nat) : Int := readI16LE file 6

def v1HashMethod (file : List Nat) : EntryPath := bytesToPath (ReadBytes file 8 4)

def v1NumEntries (file : List Nat) : Int := readI32LE file 12

def v1EntriesOffset (file : List Nat) : Int := readI32LE file 16

/-- Embeds `EntryHeaderV1` (lines 19-28): a 32-byte record - 64-bit hash and
offset, a 32-bit bitfield (bit 0 `isDirectory`, bit 1 `isCompressed`), crc,
size and compressed size. -/
structure EntryHeaderV1 where
  hash : Nat
  offset : Nat
  isDirectory : Bool
  isCompressed : Bool
  crc : Nat
  size : Nat
  compressedSize : Nat
deriving DecidableEq

def parseEntryHeaderV1 (file : List Nat) (o : Nat) : EntryHeaderV1 :=
  { hash := readU64LE file o
    offset := readU64LE file (o + 8)
    isDirectory := readU32LE file (o + 16) % 2 == 1
    isCompressed := readU32LE file (o + 16) / 2 % 2 == 1
    crc := readU32LE file (o + 20)
    size := readU32LE file (o + 24)
    compressedSize := readU32LE file (o + 28) }

/-- Embeds `EntryV1Metadata` (lines 107-113); `createEntryV1` fills `size` with the
header's `compressedSize` (line 79). -/
structure EntryV1Metadata where
  hash : Nat
  offset : Nat
  size : Nat
  isDirectory : Bool
  isDataCompressed : Bool
deriving DecidableEq

def v1Metadata (h : EntryHeaderV1) : EntryV1Metadata :=
  { hash := h.hash
    offset := h.offset
    size := h.compressedSize
    isDirectory := h.isDirectory
    isDataCompressed := h.isCompressed }

/-- Embeds `ScsArchiveEntryV1.read` (lines 139-159): empty payloads return
immediately; uncompressed payloads are returned raw; compressed payloads are
passed whole to `zlib.inflateSync` (the `inflate` parameter, `none`
modelling a throw), and on failure the error is logged and the raw
compressed bytes are returned.  The second component records the bytes
handed to the decompression primitive, `none` when it was not invoked. -/
def scsV1Read (inflate : List Nat → Option (List Nat)) (file : List Nat)
    (m : EntryV1Metadata) : List Nat × Option (List Nat) :=
  if m.size = 0 then ([], none)
  else if !m.isDataCompressed then (ReadBytes file m.offset m.size, none)
  else
    match inflate (ReadBytes file m.offset m.size) with
    | some out => (out, some (ReadBytes file m.offset m.size))
    | none => (ReadBytes file m.offset m.size, some (ReadBytes file m.offset m.size))

/-- JS `split(/[\r\n]/)` over payload bytes. -/
def splitLines (bs : List Nat) : List (List Nat) :=
  bs.foldr (fun b acc =>
    if b = 10 ∨ b = 13 then [] :: acc else (b :: acc.headD []) :: acc.tail) [[]]

/-- The `ScsArchiveDirectoryV1` constructor's listing loop (lines 171-190):
blank lines are skipped, `*`-prefixed lines (byte 42) name subdirectories,
the rest name files. -/
def v1Listing (bs : List Nat) : List EntryPath × List EntryPath :=
  (splitLines bs).foldl
    (fun acc line =>
      if line = [] ∨ line = [10] ∨ line = [13] then acc
      else if line.headD 0 = 42 then (acc.1 ++ [bytesToPath (line.drop 1)], acc.2)
      else (acc.1, acc.2 ++ [bytesToPath line]))
    ([], [])

structure V1DirectoryEntry where
  hash : Nat
  subdirectories : List EntryPath
  files : List EntryPath
deriving DecidableEq

structure V1FileEntry where
  metadata : EntryV1Metadata
deriving DecidableEq

structure V1Entries where
  directories : EntryStore V1DirectoryEntry
  files : EntryStore V1FileEntry
deriving DecidableEq

/-- Embeds `ScsArchiveV1` state: file bytes and the memoised `entries` (the header
is re-read from the bytes on demand). -/
structure ScsArchiveV1 where
  file : List Nat
  entries : Option V1Entries
deriving DecidableEq

/-- Embeds `ScsArchiveV1.isValid` (lines 46-52): exact magic, hash-method tag and
version. -/
def ScsArchiveV1.isValid (a : ScsArchiveV1) : Bool :=
  decide (v1Magic a.file = ("SCS#".data : EntryPath)) &&
    decide (v1HashMethod a.file = ("CITY".data : EntryPath)) &&
    decide (v1Version a.file = 1)

/-- The entry table: `numEntries` contiguous 32-byte records at
`entriesOffset`. -/
def v1HeadersOf (a : ScsArchiveV1) : List EntryHeaderV1 :=
  (List.range (v1NumEntries a.file).toNat).map
    (fun i => parseEntryHeaderV1 a.file ((v1EntriesOffset a.file).toNat + 32 * i))

/-- The `Entries` a cache-miss `parseEntries` computes (lines 60-88):
directory entries parse their listing via `read()`, file entries keep their
metadata; both stores carry the header's salt. -/
def v1Compute (inflate : List Nat → Option (List Nat)) (a : ScsArchiveV1) :
    V1Entries :=
  { directories := createStore
      (((v1HeadersOf a).filter (fun h => h.isDirectory)).map
        (fun h =>
          { hash := h.hash
            subdirectories := (v1Listing (scsV1Read inflate a.file (v1Metadata h)).1).1
            files := (v1Listing (scsV1Read inflate a.file (v1Metadata h)).1).2 }))
      (v1Salt a.file)
    files := createStore
      (((v1HeadersOf a).filter (fun h => !h.isDirectory)).map
        (fun h => { metadata := v1Metadata h }))
      (v1Salt a.file) }

/-- The `fs.readSync` count of a cache-miss `parseEntries` call: one for the
entry table plus one inside `read()` for each directory entry with a
nonempty payload. -/
def v1Reads (a : ScsArchiveV1) : Nat :=
  1 + ((v1HeadersOf a).filter
    (fun h => h.isDirectory && decide (h.compressedSize ≠ 0))).length

/-- Embeds `ScsArchiveV1.parseEntries` (lines 54-92): `Preconditions.checkState`
fails on an invalid header; otherwise memoisation then entry-table parse.
The `Nat` counts the `fs.readSync` calls of the invocation (0 on a cache
hit). -/
def ScsArchiveV1.parseEntries (inflate : List Nat → Option (List Nat))
    (a : ScsArchiveV1) : Except ZipError (V1Entries × ScsArchiveV1 × Nat) :=
  if a.isValid = true then
    match a.entries with
    | some e => Except.ok (e, a, 0)
    | none =>
      Except.ok (v1Compute inflate a, { a with entries := some (v1Compute inflate a) },
        v1Reads a)
  else Except.error ZipError.precondition

/-- An all-zero central-directory file header, the base record the sources
synthesise for the top-level entry and the base of the concrete examples
below. -/
def cdfh0 : CDFH :=
  { versionMadeBy := 0, versionNeeded := 0, flags := 0, compressedMethod := 0,
    fileModificationTime := 0, fileModificationDate := 0, crc32 := 0,
    compressedSize := 0, uncompressedSize := 0, fileNameLength := 0,
    extraFieldLength := 0, fileCommentLength := 0, diskNr := 0,
    internalAttribs := 0, externalAttribs := 0, localFileHeaderOffset := 0,
    fileName := [], extraField := [], fileComment := [] }

/-- The `assets/` directory marker record with method field Deflate. -/
def cdfhAssetsDeflate : CDFH :=
  { cdfh0 with fileName := ("assets/".data : EntryPath), compressedMethod := 8 }

/-- The `assets/` directory marker record, stored (method None). -/
def cdfhAssets : CDFH :=
  { cdfh0 with fileName := ("assets/".data : EntryPath) }

/-- A sample file record. -/
def cdfhDefA : CDFH :=
  { cdfh0 with fileName := ("def/a.sii".data : EntryPath) }

/-- The same name as `cdfhDefA` with different non-path attributes. -/
def cdfhDefA2 : CDFH :=
  { cdfh0 with
    fileName := ("def/a.sii".data : EntryPath)
    crc32 := 7
    uncompressedSize := 9 }

/-! ## Theorems -/

/-! #### Bounds for the path loops (towards termination of `getParentDir`) -/

theorem dirnameEnd_le (cs : EntryPath) :
    ∀ (i : Nat) (b : Bool) (e : Nat), dirnameEnd cs b i = some e → e ≤ i := by
  intro i
  induction i with
  | zero => intro b e h; simp [dirnameEnd] at h
  | succ i ih =>
    intro b e h
    simp only [dirnameEnd] at h
    split at h
    · split at h
      · exact le_trans (ih _ _ h) (Nat.le_succ i)
      · cases h; exact le_refl _
    · exact le_trans (ih _ _ h) (Nat.le_succ i)

theorem dirnameEnd_true_nonslash (cs : EntryPath) :
    ∀ (i e : Nat), dirnameEnd cs true i = some e →
      ∃ j, e < j ∧ j ≤ i ∧ cs.getD j ' ' ≠ '/' := by
  intro i
  induction i with
  | zero => intro e h; simp [dirnameEnd] at h
  | succ i ih =>
    intro e h
    simp only [dirnameEnd, if_true] at h
    split at h
    · obtain ⟨j, hj1, hj2, hj3⟩ := ih e h
      exact ⟨j, hj1, le_trans hj2 (Nat.le_succ i), hj3⟩
    · rename_i hns
      have he := dirnameEnd_le cs i false e h
      exact ⟨i + 1, Nat.lt_succ_of_le he, le_refl _, hns⟩

/-- If every scanned character is a slash, the basename loop never sets
`end`. -/
theorem basenameLoop_all_slash (cs : EntryPath) :
    ∀ (n : Nat), (∀ j, j < n → cs.getD j ' ' = '/') →
      basenameLoop cs none n = (0, none) := by
  intro n
  induction n with
  | zero => intro _; rfl
  | succ n ih =>
    intro hall
    rw [basenameLoop]
    rw [if_pos (hall n (Nat.lt_succ_self n))]
    exact ih (fun j hj => hall j (Nat.lt_succ_of_lt hj))

/-- A path with a nonempty basename contains a character other than `/`. -/
theorem basename_ne_nil_nonslash (cs : EntryPath) (h : basename cs ≠ []) :
    ∃ j, j < cs.length ∧ cs.getD j ' ' ≠ '/' := by
  by_contra hc
  push_neg at hc
  apply h
  unfold basename
  rw [basenameLoop_all_slash cs cs.length hc]

/-- The normalised parent of a path with a nonempty basename is strictly
shorter; this is the termination measure of `getParentDir`'s recursion. -/
theorem parentOf_length_lt (cs : EntryPath) (h : basename cs ≠ []) :
    (parentOf cs).length < cs.length := by
  obtain ⟨j, hj, hns⟩ := basename_ne_nil_nonslash cs h
  have hpos : 0 < cs.length := by omega
  have hlen : ¬ cs.length = 0 := by omega
  have key : (dirname cs).length < cs.length ∨ dirname cs = ['.'] := by
    unfold dirname
    rw [if_neg hlen]
    cases hde : dirnameEnd cs true (cs.length - 1) with
    | none =>
      by_cases hr : cs.getD 0 ' ' = '/'
      · left
        show (if List.getD cs 0 ' ' = '/' then ['/'] else ['.']).length < cs.length
        rw [if_pos hr]
        have hj0 : j ≠ 0 := by intro e0; subst e0; exact hns hr
        simp only [List.length_cons, List.length_nil]
        omega
      · right
        show (if List.getD cs 0 ' ' = '/' then ['/'] else ['.']) = ['.']
        rw [if_neg hr]
    | some e =>
      left
      have he := dirnameEnd_le cs (cs.length - 1) true e hde
      show (if List.getD cs 0 ' ' = '/' ∧ e = 1 then ['/', '/'] else List.take e cs).length
          < cs.length
      by_cases hre : cs.getD 0 ' ' = '/' ∧ e = 1
      · obtain ⟨j2, hj21, hj22, hj23⟩ := dirnameEnd_true_nonslash cs (cs.length - 1) e hde
        obtain ⟨hr0, he1⟩ := hre
        rw [if_pos ⟨hr0, he1⟩]
        simp only [List.length_cons, List.length_nil]
        omega
      · rw [if_neg hre]
        rw [List.length_take]
        omega
  unfold parentOf
  by_cases hd : dirname cs = ['.']
  · simpa [hd] using hpos
  · rcases key with hk | hk
    · simpa [hd] using hk
    · exact absurd hk hd

theorem ancestorChainAux_irrel :
    ∀ (f g : Nat) (p : EntryPath), p.length < f → p.length < g →
      ancestorChainAux f p = ancestorChainAux g p := by
  intro f
  induction f with
  | zero => intro g p hf; omega
  | succ f ih =>
    intro g p hf hg
    cases g with
    | zero => omega
    | succ g =>
      simp only [ancestorChainAux]
      by_cases hb : basename p = []
      · simp [hb]
      · rw [if_neg hb, if_neg hb]
        have hlt := parentOf_length_lt p hb
        rw [ih g (parentOf p) (by omega) (by omega)]

theorem ancestorChain_nil (p : EntryPath) (h : basename p = []) :
    ancestorChain p = [] := by
  unfold ancestorChain
  simp [ancestorChainAux, h]

theorem ancestorChainAux_succ (f : Nat) (p : EntryPath) :
    ancestorChainAux (f + 1) p =
      if basename p = [] then [] else parentOf p :: ancestorChainAux f (parentOf p) :=
  rfl

theorem ancestorChain_cons (p : EntryPath) (h : basename p ≠ []) :
    ancestorChain p = parentOf p :: ancestorChain (parentOf p) := by
  have hlt := parentOf_length_lt p h
  unfold ancestorChain
  rw [ancestorChainAux_succ, if_neg h,
    ancestorChainAux_irrel p.length ((parentOf p).length + 1) (parentOf p)
      (by omega) (by omega)]

theorem getParentDirAux_succ (fuel : Nat) (key : EntryPath) (d : DirNode) (m : DirMap) :
    getParentDirAux (fuel + 1) key d m =
      match mapGet (getParentDirRegister fuel key m) key with
      | some v => (v, getParentDirRegister fuel key m)
      | none => (d, mapSet (getParentDirRegister fuel key m) key d) :=
  rfl

/-! ### Map lemmas and monotonicity -/

theorem mapGet_mapSet_self : ∀ (m : DirMap) (k : EntryPath) (v : DirNode),
    mapGet (mapSet m k v) k = some v := by
  intro m k v
  induction m with
  | nil => simp [mapSet, mapGet]
  | cons kv rest ih =>
    by_cases hk : kv.1 = k
    · simp [mapSet, hk, mapGet]
    · simp [mapSet, hk, mapGet, ih]

theorem mapGet_mapSet_ne : ∀ (m : DirMap) (k k2 : EntryPath) (v : DirNode),
    k2 ≠ k → mapGet (mapSet m k v) k2 = mapGet m k2 := by
  intro m k k2 v hne
  induction m with
  | nil => simp [mapSet, mapGet, Ne.symm hne]
  | cons kv rest ih =>
    by_cases hk : kv.1 = k
    · have : kv.1 ≠ k2 := by rw [hk]; exact Ne.symm hne
      simp [mapSet, hk, mapGet, Ne.symm hne, this]
    · simp only [mapSet]
      rw [if_neg hk]
      by_cases hk2 : kv.1 = k2
      · simp [mapGet, hk2]
      · simp [mapGet, hk2, ih]

theorem nodeLe_refl (v : DirNode) : nodeLe v v := ⟨fun _ h => h, fun _ h => h⟩

theorem nodeLe_trans {u v w : DirNode} (h1 : nodeLe u v) (h2 : nodeLe v w) :
    nodeLe u w :=
  ⟨fun c hc => h2.1 c (h1.1 c hc), fun c hc => h2.2 c (h1.2 c hc)⟩

theorem mapLe_refl (m : DirMap) : mapLe m m :=
  fun _ v h => ⟨v, h, nodeLe_refl v⟩

theorem mapLe_trans {m1 m2 m3 : DirMap} (h1 : mapLe m1 m2) (h2 : mapLe m2 m3) :
    mapLe m1 m3 := by
  intro k v h
  obtain ⟨w, hw, hvw⟩ := h1 k v h
  obtain ⟨x, hx, hwx⟩ := h2 k w hw
  exact ⟨x, hx, nodeLe_trans hvw hwx⟩

theorem mapLe_set_of_none {m : DirMap} {k : EntryPath} (v : DirNode)
    (h : mapGet m k = none) : mapLe m (mapSet m k v) := by
  intro k2 w hw
  have hne : k2 ≠ k := by intro e0; subst e0; rw [hw] at h; cases h
  rw [mapGet_mapSet_ne m k k2 v hne]
  exact ⟨w, hw, nodeLe_refl w⟩

theorem mapLe_set_grow {m : DirMap} {k : EntryPath} {v w : DirNode}
    (h : mapGet m k = some v) (hle : nodeLe v w) : mapLe m (mapSet m k w) := by
  intro k2 u hu
  by_cases hk : k2 = k
  · subst hk
    rw [hu] at h
    injection h with h
    subst h
    exact ⟨w, mapGet_mapSet_self m k2 w, hle⟩
  · rw [mapGet_mapSet_ne m k k2 w hk]
    exact ⟨u, hu, nodeLe_refl u⟩

/-! ### `getParentDir` establishes and preserves the ancestor invariant -/

theorem getParentDirAux_get_self (fuel : Nat) (key : EntryPath) (d : DirNode)
    (m : DirMap) :
    mapGet (getParentDirAux (fuel + 1) key d m).2 key
      = some (getParentDirAux (fuel + 1) key d m).1 := by
  rw [getParentDirAux_succ]
  cases hg : mapGet (getParentDirRegister fuel key m) key with
  | some v => simpa using hg
  | none => simp [mapGet_mapSet_self]

theorem getParentDirRegister_mapLe (fuel : Nat) (key : EntryPath) (m : DirMap)
    (hrec : basename key ≠ [] →
      mapLe m (getParentDirAux fuel (parentOf key) ⟨[], []⟩ m).2)
    (hfuel : basename key ≠ [] → 0 < fuel) :
    mapLe m (getParentDirRegister fuel key m) := by
  unfold getParentDirRegister
  by_cases hb : basename key ≠ []
  · rw [if_pos hb]
    cases fuel with
    | zero => exact absurd (hfuel hb) (by omega)
    | succ f2 =>
      have hself := getParentDirAux_get_self f2 (parentOf key) ⟨[], []⟩ m
      by_cases hmem : basename key ∈
          (getParentDirAux (f2 + 1) (parentOf key) ⟨[], []⟩ m).1.subdirectories
      · rw [if_pos hmem]; exact hrec hb
      · rw [if_neg hmem]
        exact mapLe_trans (hrec hb)
          (mapLe_set_grow hself ⟨fun c hc => by simp [hc], fun c hc => hc⟩)
  · rw [if_neg hb]; exact mapLe_refl m

theorem getParentDirAux_mapLe :
    ∀ (fuel : Nat) (key : EntryPath) (d : DirNode) (m : DirMap),
      key.length < fuel → mapLe m (getParentDirAux fuel key d m).2 := by
  intro fuel
  induction fuel with
  | zero => intro key d m h; omega
  | succ fuel ih =>
    intro key d m hlen
    have hreg : mapLe m (getParentDirRegister fuel key m) := by
      refine getParentDirRegister_mapLe fuel key m (fun hb => ?_) (fun hb => ?_)
      · have hplt := parentOf_length_lt key hb
        exact ih _ _ _ (by omega)
      · have hplt := parentOf_length_lt key hb
        omega
    rw [getParentDirAux_succ]
    cases hg : mapGet (getParentDirRegister fuel key m) key with
    | some v =>
      show mapLe m (getParentDirRegister fuel key m)
      exact hreg
    | none =>
      show mapLe m (mapSet (getParentDirRegister fuel key m) key d)
      exact mapLe_trans hreg (mapLe_set_of_none d hg)

theorem keyClosure_mono {m m2 : DirMap} {key : EntryPath}
    (hle : mapLe m m2) (h : keyClosure m key) : keyClosure m2 key := by
  intro a ha
  obtain ⟨⟨v, hv⟩, hreg⟩ := h a ha
  obtain ⟨w, hw, _⟩ := hle a v hv
  refine ⟨⟨w, hw⟩, ?_⟩
  intro hb
  obtain ⟨u, hu, humem⟩ := hreg hb
  obtain ⟨x, hx, hux⟩ := hle (parentOf a) u hu
  exact ⟨x, hx, hux.1 _ humem⟩

theorem getParentDirRegister_spec (fuel : Nat) (key : EntryPath) (m : DirMap)
    (hb : basename key ≠ []) (hfuel : (parentOf key).length < fuel)
    (hcl : keyClosure (getParentDirAux fuel (parentOf key) ⟨[], []⟩ m).2 (parentOf key)) :
    keyClosure (getParentDirRegister fuel key m) (parentOf key) ∧
    ∃ w, mapGet (getParentDirRegister fuel key m) (parentOf key) = some w ∧
      basename key ∈ w.subdirectories := by
  cases fuel with
  | zero => omega
  | succ f2 =>
    have hself := getParentDirAux_get_self f2 (parentOf key) ⟨[], []⟩ m
    unfold getParentDirRegister
    rw [if_pos hb]
    by_cases hmem : basename key ∈
        (getParentDirAux (f2 + 1) (parentOf key) ⟨[], []⟩ m).1.subdirectories
    · rw [if_pos hmem]
      exact ⟨hcl, ⟨_, hself, hmem⟩⟩
    · rw [if_neg hmem]
      have hgrow := mapLe_set_grow (w :=
          ⟨(getParentDirAux (f2 + 1) (parentOf key) ⟨[], []⟩ m).1.subdirectories
              ++ [basename key],
            (getParentDirAux (f2 + 1) (parentOf key) ⟨[], []⟩ m).1.files⟩)
        hself ⟨fun c hc => by simp [hc], fun c hc => hc⟩
      refine ⟨keyClosure_mono hgrow hcl, ?_⟩
      exact ⟨_, mapGet_mapSet_self _ _ _, by simp⟩

theorem getParentDirAux_closure :
    ∀ (fuel : Nat) (key : EntryPath) (d : DirNode) (m : DirMap),
      key.length < fuel → keyClosure (getParentDirAux fuel key d m).2 key := by
  intro fuel
  induction fuel with
  | zero => intro key d m h; omega
  | succ fuel ih =>
    intro key d m hlen
    by_cases hb : basename key = []
    · intro a ha
      rw [ancestorChain_nil key hb] at ha
      rcases List.mem_singleton.mp ha with rfl
      exact ⟨⟨_, getParentDirAux_get_self fuel a d m⟩, fun h2 => absurd hb h2⟩
    · have hplt := parentOf_length_lt key hb
      have hrec := ih (parentOf key) ⟨[], []⟩ m (by omega)
      obtain ⟨hA, w0, hw0, hw0mem⟩ :=
        getParentDirRegister_spec fuel key m hb (by omega) hrec
      rw [getParentDirAux_succ]
      cases hg : mapGet (getParentDirRegister fuel key m) key with
      | some v =>
        show keyClosure (getParentDirRegister fuel key m) key
        intro a ha
        rcases List.mem_cons.mp ha with rfl | ha2
        · exact ⟨⟨v, hg⟩, fun _ => ⟨w0, hw0, hw0mem⟩⟩
        · rw [ancestorChain_cons key hb] at ha2
          exact hA a ha2
      | none =>
        show keyClosure (mapSet (getParentDirRegister fuel key m) key d) key
        have hle3 : mapLe (getParentDirRegister fuel key m)
            (mapSet (getParentDirRegister fuel key m) key d) :=
          mapLe_set_of_none d hg
        intro a ha
        rcases List.mem_cons.mp ha with rfl | ha2
        · refine ⟨⟨d, mapGet_mapSet_self _ _ _⟩, fun _ => ?_⟩
          obtain ⟨x, hx, hx2⟩ := hle3 (parentOf a) w0 hw0
          exact ⟨x, hx, hx2.1 _ hw0mem⟩
        · rw [ancestorChain_cons key hb] at ha2
          exact keyClosure_mono hle3 hA a ha2

theorem chainClosure_mono {m m2 : DirMap} {p : EntryPath}
    (hle : mapLe m m2) (h : chainClosure m p) : chainClosure m2 p := by
  intro a ha
  obtain ⟨⟨v, hv⟩, hreg⟩ := h a ha
  obtain ⟨w, hw, _⟩ := hle a v hv
  refine ⟨⟨w, hw⟩, ?_⟩
  intro hb
  obtain ⟨u, hu, humem⟩ := hreg hb
  obtain ⟨x, hx, hux⟩ := hle (parentOf a) u hu
  exact ⟨x, hx, hux.1 _ humem⟩

theorem chainClosure_of_keyClosure {m : DirMap} {p : EntryPath}
    (hb : basename p ≠ []) (h : keyClosure m (parentOf p)) : chainClosure m p := by
  intro a ha
  rw [ancestorChain_cons p hb] at ha
  exact h a ha

theorem createDirectoryTreeStep_mapLe (m : DirMap) (e : EntryPath × Nat) :
    mapLe m (createDirectoryTreeStep m e) := by
  unfold createDirectoryTreeStep
  by_cases hb : basename e.1 = []
  · rw [if_pos hb]; exact mapLe_refl m
  · rw [if_neg hb]
    have hle1 : mapLe m (getParentDir (parentOf e.1) ⟨[], []⟩ m).2 :=
      getParentDirAux_mapLe ((parentOf e.1).length + 1) (parentOf e.1) ⟨[], []⟩ m
        (by omega)
    have hself : mapGet (getParentDir (parentOf e.1) ⟨[], []⟩ m).2 (parentOf e.1)
        = some (getParentDir (parentOf e.1) ⟨[], []⟩ m).1 :=
      getParentDirAux_get_self (parentOf e.1).length (parentOf e.1) ⟨[], []⟩ m
    by_cases hsz : e.2 > 0
    · rw [if_pos hsz]
      exact mapLe_trans hle1
        (mapLe_set_grow hself ⟨fun c hc => hc, fun c hc => by simp [hc]⟩)
    · rw [if_neg hsz]
      by_cases hmem : basename e.1 ∈
          (getParentDir (parentOf e.1) ⟨[], []⟩ m).1.subdirectories
      · rw [if_pos hmem]; exact hle1
      · rw [if_neg hmem]
        exact mapLe_trans hle1
          (mapLe_set_grow hself ⟨fun c hc => by simp [hc], fun c hc => hc⟩)

theorem createDirectoryTreeStep_closure (m : DirMap) (e : EntryPath × Nat)
    (hb : basename e.1 ≠ []) :
    chainClosure (createDirectoryTreeStep m e) e.1 := by
  have hcl : keyClosure (getParentDir (parentOf e.1) ⟨[], []⟩ m).2 (parentOf e.1) :=
    getParentDirAux_closure ((parentOf e.1).length + 1) (parentOf e.1) ⟨[], []⟩ m
      (by omega)
  have hself : mapGet (getParentDir (parentOf e.1) ⟨[], []⟩ m).2 (parentOf e.1)
      = some (getParentDir (parentOf e.1) ⟨[], []⟩ m).1 :=
    getParentDirAux_get_self (parentOf e.1).length (parentOf e.1) ⟨[], []⟩ m
  apply chainClosure_of_keyClosure hb
  unfold createDirectoryTreeStep
  rw [if_neg hb]
  by_cases hsz : e.2 > 0
  · rw [if_pos hsz]
    exact keyClosure_mono
      (mapLe_set_grow hself ⟨fun c hc => hc, fun c hc => by simp [hc]⟩) hcl
  · rw [if_neg hsz]
    by_cases hmem : basename e.1 ∈
        (getParentDir (parentOf e.1) ⟨[], []⟩ m).1.subdirectories
    · rw [if_pos hmem]; exact hcl
    · rw [if_neg hmem]
      exact keyClosure_mono
        (mapLe_set_grow hself ⟨fun c hc => by simp [hc], fun c hc => hc⟩) hcl

theorem foldl_createDirectoryTreeStep_mapLe :
    ∀ (l : List (EntryPath × Nat)) (m : DirMap),
      mapLe m (l.foldl createDirectoryTreeStep m) := by
  intro l
  induction l with
  | nil => intro m; exact mapLe_refl m
  | cons e rest ih =>
    intro m
    exact mapLe_trans (createDirectoryTreeStep_mapLe m e) (ih _)

theorem foldl_createDirectoryTreeStep_closure :
    ∀ (l : List (EntryPath × Nat)) (m : DirMap) (p : EntryPath) (sz : Nat),
      (p, sz) ∈ l → basename p ≠ [] →
      chainClosure (l.foldl createDirectoryTreeStep m) p := by
  intro l
  induction l with
  | nil => intro m p sz h hb; simp at h
  | cons e rest ih =>
    intro m p sz hmem hb
    rcases List.mem_cons.mp hmem with heq | h2
    · subst heq
      exact chainClosure_mono (foldl_createDirectoryTreeStep_mapLe rest _)
        (createDirectoryTreeStep_closure m (p, sz) hb)
    · exact ih _ p sz h2 hb

/-! ### Reader lemmas -/

theorem byteAt_eq_headD (file : List Nat) :
    ∀ pos, byteAt file pos = (file.drop pos).headD 0 := by
  induction file with
  | nil => intro pos; simp [byteAt]
  | cons b rest ih =>
    intro pos
    cases pos with
    | zero => simp [byteAt]
    | succ pos => simp [byteAt]

theorem byteAt_lt_256 (file : List Nat) (hbytes : ∀ b ∈ file, b < 256) :
    ∀ i, byteAt file i < 256 := by
  induction file with
  | nil => intro i; simp [byteAt]
  | cons b rest ih =>
    intro i
    cases i with
    | zero => simp only [byteAt, List.getD_cons_zero]; exact hbytes b (by simp)
    | succ i =>
      have := ih (fun x hx => hbytes x (by simp [hx])) i
      simpa [byteAt] using this

theorem ReadBytes_succ (file : List Nat) (pos len : Nat) :
    ReadBytes file pos (len + 1) = byteAt file pos :: ReadBytes file (pos + 1) len := by
  unfold ReadBytes
  rw [List.range_succ_eq_map]
  simp only [List.map_cons, Nat.add_zero, List.map_map]
  congr 1
  apply List.map_congr_left
  intro a _
  simp only [Function.comp]
  congr 1
  omega

theorem ReadBytes_length (file : List Nat) (pos len : Nat) :
    (ReadBytes file pos len).length = len := by
  simp [ReadBytes]

theorem ReadBytes_eq_take_pad (file : List Nat) :
    ∀ (len pos : Nat), ReadBytes file pos len =
      (file.drop pos).take len
        ++ List.replicate (len - ((file.drop pos).take len).length) 0 := by
  intro len
  induction len with
  | zero => intro pos; simp [ReadBytes]
  | succ len ih =>
    intro pos
    rw [ReadBytes_succ]
    have htl : (file.drop pos).tail = file.drop (pos + 1) := List.tail_drop file pos
    cases hd : file.drop pos with
    | nil =>
      have hd2 : file.drop (pos + 1) = [] := by rw [← htl, hd]; rfl
      have hb : byteAt file pos = 0 := by rw [byteAt_eq_headD, hd]; rfl
      rw [hb, ih (pos + 1), hd2]
      simp [List.replicate_succ]
    | cons b rest2 =>
      have hd2 : file.drop (pos + 1) = rest2 := by rw [← htl, hd]; rfl
      have hb : byteAt file pos = b := by rw [byteAt_eq_headD, hd]; rfl
      rw [hb, ih (pos + 1), hd2]
      simp only [List.take_succ_cons, List.length_cons, List.cons_append]
      rw [Nat.succ_sub_succ]

theorem byteAt_ReadBytes (file : List Nat) :
    ∀ (len pos i : Nat), i < len →
      byteAt (ReadBytes file pos len) i = byteAt file (pos + i) := by
  intro len
  induction len with
  | zero => intro pos i h; omega
  | succ len ih =>
    intro pos i h
    rw [ReadBytes_succ]
    cases i with
    | zero => simp [byteAt]
    | succ i =>
      have hrec := ih (pos + 1) i (by omega)
      simp only [byteAt, List.getD_cons_succ] at hrec ⊢
      rw [show pos + (i + 1) = pos + 1 + i by omega]
      exact hrec

theorem readU32LE_ReadBytes (file : List Nat) (pos len i : Nat) (h : i + 4 ≤ len) :
    readU32LE (ReadBytes file pos len) i = readU32LE file (pos + i) := by
  unfold readU32LE
  rw [byteAt_ReadBytes file len pos i (by omega),
    byteAt_ReadBytes file len pos (i + 1) (by omega),
    byteAt_ReadBytes file len pos (i + 2) (by omega),
    byteAt_ReadBytes file len pos (i + 3) (by omega)]
  ring_nf

theorem readU32LE_low_byte (file : List Nat) (hbytes : ∀ b ∈ file, b < 256)
    (p : Nat) (h : readU32LE file p = 0x06054b50) : byteAt file p = 0x50 := by
  have h0 := byteAt_lt_256 file hbytes p
  have h1 := byteAt_lt_256 file hbytes (p + 1)
  have h2 := byteAt_lt_256 file hbytes (p + 2)
  have h3 := byteAt_lt_256 file hbytes (p + 3)
  unfold readU32LE at h
  omega

/-! ### C7 -/

/-- C7 (amended): `ReadBytes` (the readExact of both ZIP readers) cannot
fail and never reports a short read: it always returns exactly `len` bytes,
namely the available file bytes at `pos` followed by silent zero padding.
The code ignores `fs.readSync`'s byte count, so the IoError the claim
demands is never raised. -/
theorem c7_ReadBytes_total_zero_padded (file : List Nat) (pos len : Nat) :
    (ReadBytes file pos len).length = len ∧
    ReadBytes file pos len =
      (file.drop pos).take len
        ++ List.replicate (len - ((file.drop pos).take len).length) 0 :=
  ⟨ReadBytes_length file pos len, ReadBytes_eq_take_pad file len pos⟩

/-- C7 (counterexample): reading 4 bytes from a 2-byte file succeeds with
`[1, 2, 0, 0]` although fewer than 4 file bytes exist at that position - a
silent zero-padded short read where the claim demands an IoError. -/
theorem c7_ReadBytes_short_read_succeeds :
    ReadBytes [1, 2] 0 4 = [1, 2, 0, 0] ∧
    ¬ 4 ≤ (([1, 2] : List Nat).drop 0).length := by
  decide

/-! ### C9 -/

/-- C9: the `read()` dispatch (part_003, and part_002 alike): compression
method `None` (0) returns the raw payload bytes unchanged without touching
the decompression primitive, and any method code other than 0 and 8 throws
an error whose message names the offending method code. -/
theorem c9_read_dispatch (deflate gdeflate : List Nat → Nat → Nat × List Nat)
    (tshSize : Nat) (file : List Nat) (e : CDFH) :
    (e.compressedMethod = 0 →
      (zipRead3 deflate file e).1 = Except.ok (zipRawData file e) ∧
      (zipRead3 deflate file e).2 = none ∧
      (zipRead2 gdeflate tshSize file e).1 = Except.ok (zipRawData file e)) ∧
    (e.compressedMethod ≠ 0 → e.compressedMethod ≠ 8 →
      (zipRead3 deflate file e).1
          = Except.error (ReadError.unsupported e.compressedMethod) ∧
      (zipRead2 gdeflate tshSize file e).1
          = Except.error (ReadError.unsupported e.compressedMethod) ∧
      readErrorMessage (ReadError.unsupported e.compressedMethod)
          = "unsupported compression type " ++ toString e.compressedMethod) := by
  constructor
  · intro h0
    refine ⟨?_, ?_, ?_⟩ <;> simp [zipRead3, zipRead2, h0]
  · intro h0 h8
    refine ⟨?_, ?_, ?_⟩ <;> simp [zipRead3, zipRead2, h0, h8, readErrorMessage]

/-- C9 (witness): method code 3 on an empty file. -/
theorem c9_read_dispatch_witness :
    ({ cdfh0 with compressedMethod := 3 } : CDFH).compressedMethod ≠ 0 ∧
    ({ cdfh0 with compressedMethod := 3 } : CDFH).compressedMethod ≠ 8 ∧
    (zipRead3 (fun _ _ => (0, [])) [] { cdfh0 with compressedMethod := 3 }).1
      = Except.error (ReadError.unsupported 3) := by
  refine ⟨by decide, by decide, ?_⟩
  exact ((c9_read_dispatch (fun _ _ => (0, [])) (fun _ _ => (0, [])) 0 []
    { cdfh0 with compressedMethod := 3 }).2 (by decide) (by decide)).1

/-! ### C4 -/

/-- C4 (amended): uncompressed size 0 classifies a record as Directory and a
positive size as File, unconditionally; and a record whose method field is
`None` (0) - as stored directory markers such as `assets/` are - is read
without ever invoking the decompression primitive, yielding exactly its
`compressedSize` raw bytes, hence the empty byte sequence when that size is
0 as well.  The method hypothesis is needed: a size-0 record whose method
field is Deflate does invoke the primitive (see the counterexample). -/
theorem c4_classification_and_directory_read
    (gdeflate : List Nat → Nat → Nat × List Nat) (tshSize : Nat)
    (file : List Nat) (e : CDFH) :
    (createEntryKind e = EntryKind.directory ↔ e.uncompressedSize = 0) ∧
    (e.compressedMethod = 0 →
      (zipRead2 gdeflate tshSize file e).2 = none ∧
      (zipRead2 gdeflate tshSize file e).1 = Except.ok (zipRawData file e) ∧
      (e.compressedSize = 0 →
        (zipRead2 gdeflate tshSize file e).1 = Except.ok [])) := by
  constructor
  · constructor
    · intro hd
      by_contra hnz
      have hpos : e.uncompressedSize > 0 := Nat.pos_of_ne_zero hnz
      simp [createEntryKind, hpos] at hd
    · intro hz
      simp [createEntryKind, hz]
  · intro h0
    refine ⟨?_, ?_, ?_⟩
    · simp [zipRead2, h0]
    · simp [zipRead2, h0]
    · intro hcs
      simp [zipRead2, h0, zipRawData, hcs, ReadBytes]

/-- C4 (witness): the `assets/` record with all sizes 0 and method None. -/
theorem c4_classification_and_directory_read_witness :
    cdfhAssets.compressedMethod = 0 ∧
    createEntryKind cdfhAssets = EntryKind.directory ∧
    (zipRead2 (fun _ _ => (0, [])) 8 [] cdfhAssets).2 = none ∧
    (zipRead2 (fun _ _ => (0, [])) 8 [] cdfhAssets).1 = Except.ok [] := by
  have h := c4_classification_and_directory_read (fun _ _ => (0, [])) 8 [] cdfhAssets
  exact ⟨rfl, h.1.mpr rfl, (h.2 rfl).1, (h.2 rfl).2.2 rfl⟩

/-- C4 (counterexample): a record named `assets/` with uncompressed size 0 is
classified Directory, yet when its method field is Deflate (8) its `read()`
does hand bytes to the decompression primitive - refuting "calling read()
never invokes the decompression primitive" as a property of directory
records. -/
theorem c4_directory_method8_invokes_primitive :
    createEntryKind cdfhAssetsDeflate = EntryKind.directory ∧
    (zipRead2 (fun _ _ => (0, [])) 8 [] cdfhAssetsDeflate).2 ≠ none := by
  decide

/-! ### C6 -/

/-- C6 (amended): in part_002/part_003 the 64-bit hash is `city64` of the
entry's own `fileName` - a pure function of that path and of nothing else -
while in the adm-zip variant (part_004) it is `city64` of
`path.dirname(entryName)`, a function of the parent directory only, so
there the hash does not depend on the full entry path. -/
theorem c6_hash_pure_function (e e2 : CDFH) (f f2 : Zip4Entry) :
    (zip3Hash e = city64 e.fileName) ∧
    (e.fileName = e2.fileName → zip3Hash e = zip3Hash e2) ∧
    (dirname f.entryName = dirname f2.entryName → zip4Hash f = zip4Hash f2) := by
  refine ⟨rfl, fun h => ?_, fun h => ?_⟩
  · unfold zip3Hash; rw [h]
  · unfold zip4Hash; rw [h]

/-- C6 (witness): two records sharing a name but differing in other
attributes hash identically. -/
theorem c6_hash_pure_function_witness :
    cdfhDefA.fileName = cdfhDefA2.fileName ∧
    zip3Hash cdfhDefA = zip3Hash cdfhDefA2 := by
  refine ⟨rfl, ?_⟩
  exact (c6_hash_pure_function cdfhDefA cdfhDefA2 ⟨[], false⟩ ⟨[], false⟩).2.1 rfl

/-- C6 (counterexample): in part_004 two sibling entries with distinct full
paths receive the same hash, because the hash is taken of
`path.dirname(entryName)`; the hash therefore does not depend on the full
entry path. -/
theorem c6_zip4_sibling_hash_collision :
    zip4Hash ⟨("def/a.sii".data : EntryPath), false⟩
        = zip4Hash ⟨("def/b.sii".data : EntryPath), false⟩ ∧
    ("def/a.sii".data : EntryPath) ≠ ("def/b.sii".data : EntryPath) := by
  constructor
  · decide
  · decide

/-! ### C8 -/

/-- C8 (amended): the ScsV1-path `read()` passes the whole raw payload to
the inflate primitive - no per-tile stream header is stripped there - and on
primitive failure it degrades gracefully, returning the still-compressed
raw bytes; the fixed-size tile-header strip lives on part_002's gdeflate ZIP
path, where a nonzero primitive status is fatal instead. -/
theorem c8_scsV1_graceful_no_strip
    (inflate : List Nat → Option (List Nat)) (file : List Nat)
    (m : EntryV1Metadata) (gdeflate : List Nat → Nat → Nat × List Nat)
    (tshSize : Nat) (e : CDFH) :
    (m.size ≠ 0 → m.isDataCompressed = true →
      (scsV1Read inflate file m).2 = some (ReadBytes file m.offset m.size) ∧
      (inflate (ReadBytes file m.offset m.size) = none →
        (scsV1Read inflate file m).1 = ReadBytes file m.offset m.size)) ∧
    (e.compressedMethod = 8 →
      (zipRead2 gdeflate tshSize file e).2
          = some ((zipRawData file e).drop tshSize) ∧
      ((gdeflate ((zipRawData file e).drop tshSize) e.uncompressedSize).1 ≠ 0 →
        (zipRead2 gdeflate tshSize file e).1 = Except.error
          (ReadError.deflateError
            (gdeflate ((zipRawData file e).drop tshSize) e.uncompressedSize).1))) := by
  constructor
  · intro hs hc
    constructor
    · cases hinf : inflate (ReadBytes file m.offset m.size) with
      | none => simp [scsV1Read, hs, hc, hinf]
      | some out => simp [scsV1Read, hs, hc, hinf]
    · intro hnone
      simp [scsV1Read, hs, hc, hnone]
  · intro h8
    constructor
    · by_cases hst :
        (gdeflate ((zipRawData file e).drop tshSize) e.uncompressedSize).1 ≠ 0
      · simp [zipRead2, h8, hst]
      · simp [zipRead2, h8, hst]
    · intro hst
      simp [zipRead2, h8, hst]

/-- C8 (witness): a 1-byte compressed ScsV1 entry whose inflate fails. -/
theorem c8_scsV1_graceful_no_strip_witness :
    (⟨0, 0, 1, false, true⟩ : EntryV1Metadata).size ≠ 0 ∧
    (scsV1Read (fun _ => none) [5] ⟨0, 0, 1, false, true⟩).2 = some [5] ∧
    (scsV1Read (fun _ => none) [5] ⟨0, 0, 1, false, true⟩).1 = [5] := by
  have h := (c8_scsV1_graceful_no_strip (fun _ => none) [5] ⟨0, 0, 1, false, true⟩
    (fun _ _ => (0, [])) 8 cdfh0).1 (by decide) rfl
  refine ⟨by decide, ?_, ?_⟩
  · rw [h.1]; decide
  · rw [h.2 rfl]; decide

/-- C8 (counterexample): for a compressed 10-byte ScsV1 entry the bytes
handed to the decompression primitive are the entire 10-byte payload -
nothing, in particular no fixed-size per-tile stream header, was stripped -
refuting the header-stripping half of the claim on the ScsV1 path. -/
theorem c8_scsV1_passes_full_payload :
    (scsV1Read (fun _ => none) [1, 2, 3, 4, 5, 6, 7, 8, 9, 10]
        ⟨0, 0, 10, false, true⟩).2 = some [1, 2, 3, 4, 5, 6, 7, 8, 9, 10] ∧
    ([1, 2, 3, 4, 5, 6, 7, 8, 9, 10] : List Nat).length
        = (⟨0, 0, 10, false, true⟩ : EntryV1Metadata).size := by
  decide

/-! ### C10 -/

/-- C10: `isValid` of both ZIP variants is constantly true, so the
`Preconditions.checkState(this.isValid())` guard at the start of
`parseEntries` never fails on the ZIP path: whenever `parseEntries` errors
at all (only part_002's scan assertion can), the error is never the
PreconditionError - that branch is unreachable for ZIP archives. -/
theorem c10_zip_precondition_unreachable (a3 : ZipArchive3) (a2 : ZipArchive2) :
    (a3.isValid = true ∧
      ∀ z, a3.parseEntries = Except.error z → z ≠ ZipError.precondition) ∧
    (a2.isValid = true ∧
      ∀ z, a2.parseEntries = Except.error z → z ≠ ZipError.precondition) := by
  constructor
  · refine ⟨rfl, ?_⟩
    intro z h
    unfold ZipArchive3.parseEntries at h
    simp only [ZipArchive3.isValid, if_true] at h
    cases hc : a3.entries with
    | some e => rw [hc] at h; simp at h
    | none => rw [hc] at h; simp at h
  · refine ⟨rfl, ?_⟩
    intro z h
    unfold ZipArchive2.parseEntries at h
    simp only [ZipArchive2.isValid, if_true] at h
    cases hc : a2.entries with
    | some e => rw [hc] at h; simp at h
    | none =>
      rw [hc] at h
      cases hs : scanCD2 a2.file (a2.cdOffset + a2.cdSize) a2.cdOffset with
      | error u =>
        rw [hs] at h
        simp at h
        subst h
        decide
      | ok hdrs => rw [hs] at h; simp at h

/-- C10 (witness): the empty archive handle under both variants. -/
theorem c10_zip_precondition_unreachable_witness :
    ((⟨[], false, false, 0, 0, none⟩ : ZipArchive3).isValid = true ∧
      ∀ z, (⟨[], false, false, 0, 0, none⟩ : ZipArchive3).parseEntries
          = Except.error z → z ≠ ZipError.precondition) ∧
    ((⟨[], 0, 0, none⟩ : ZipArchive2).isValid = true ∧
      ∀ z, (⟨[], 0, 0, none⟩ : ZipArchive2).parseEntries
          = Except.error z → z ≠ ZipError.precondition) :=
  c10_zip_precondition_unreachable ⟨[], false, false, 0, 0, none⟩ ⟨[], 0, 0, none⟩

/-! ### C3 -/

/-- C3: `parseEntries` is deterministic (a pure function of the handle
state) and idempotent: when a call returns entries `e` with post-state
`a2`, calling again on `a2` returns exactly the memoised `e`, leaves the
state unchanged and performs zero `fs.readSync` calls - for part_003's
ZipArchive and for ScsArchiveV1. -/
theorem c3_parseEntries_idempotent
    (a : ZipArchive3) (e : ZEntries) (a2 : ZipArchive3) (n : Nat)
    (inflate : List Nat → Option (List Nat))
    (b : ScsArchiveV1) (f : V1Entries) (b2 : ScsArchiveV1) (k : Nat) :
    (a.parseEntries = Except.ok (e, a2, n) →
      a2.parseEntries = Except.ok (e, a2, 0)) ∧
    (ScsArchiveV1.parseEntries inflate b = Except.ok (f, b2, k) →
      ScsArchiveV1.parseEntries inflate b2 = Except.ok (f, b2, 0)) := by
  constructor
  · intro h
    unfold ZipArchive3.parseEntries at h ⊢
    simp only [ZipArchive3.isValid, if_true] at h ⊢
    cases hc : a.entries with
    | some e0 =>
      rw [hc] at h
      simp at h
      obtain ⟨he, ha, hn⟩ := h
      subst he
      subst ha
      rw [hc]
    | none =>
      rw [hc] at h
      simp at h
      obtain ⟨he, ha, hn⟩ := h
      subst he
      subst ha
      simp
  · intro h
    unfold ScsArchiveV1.parseEntries at h ⊢
    by_cases hv : b.isValid = true
    · rw [if_pos hv] at h
      cases hc : b.entries with
      | some e0 =>
        rw [hc] at h
        simp at h
        obtain ⟨he, hb, hn⟩ := h
        subst he
        subst hb
        rw [if_pos hv, hc]
      | none =>
        rw [hc] at h
        simp at h
        obtain ⟨he, hb, hn⟩ := h
        subst he
        subst hb
        have hv2 : ScsArchiveV1.isValid { b with entries := some (v1Compute inflate b) }
            = true := hv
        rw [if_pos hv2]
    · rw [if_neg hv] at h
      simp at h

/-- C3 (witness): the empty part_003 archive; its first call fills the
cache and the theorem yields the memoised second call. -/
theorem c3_parseEntries_idempotent_witness :
    (⟨[], false, false, 0, 0, none⟩ : ZipArchive3).parseEntries
        = Except.ok (⟨⟨[], 0⟩, ⟨[], 0⟩⟩,
            ⟨[], false, false, 0, 0, some ⟨⟨[], 0⟩, ⟨[], 0⟩⟩⟩, 0) ∧
    (⟨[], false, false, 0, 0, some ⟨⟨[], 0⟩, ⟨[], 0⟩⟩⟩ : ZipArchive3).parseEntries
        = Except.ok (⟨⟨[], 0⟩, ⟨[], 0⟩⟩,
            ⟨[], false, false, 0, 0, some ⟨⟨[], 0⟩, ⟨[], 0⟩⟩⟩, 0) := by
  refine ⟨by rfl, ?_⟩
  exact (c3_parseEntries_idempotent ⟨[], false, false, 0, 0, none⟩
    ⟨⟨[], 0⟩, ⟨[], 0⟩⟩ ⟨[], false, false, 0, 0, some ⟨⟨[], 0⟩, ⟨[], 0⟩⟩⟩ 0
    (fun _ => none) ⟨[], none⟩ ⟨⟨[], 0⟩, ⟨[], 0⟩⟩ ⟨[], none⟩ 0).1 (by rfl)

/-! ### C5 -/

/-- C5 (amended): when the central-directory scan meets a record whose
4-byte signature is not the central-directory-file-header signature before
the declared span is consumed, part_003's loop stops and returns the
entries parsed so far (and its `parseEntries` always succeeds), while
part_002's loop hits its `assert` and throws, failing the whole archive
(see the counterexample). -/
theorem c5_scan_mismatch_policies
    (file : List Nat) (endPos offset fuel : Nat) (acc : List CDFH)
    (reads : Nat) (a : ZipArchive3) :
    (offset < endPos → readU32LE file offset ≠ 0x02014b50 →
      scanCD3Aux file endPos (fuel + 1) offset acc reads = (acc, reads) ∧
      scanCD2Aux file endPos (fuel + 1) offset acc = Except.error ()) ∧
    (∃ r, a.parseEntries = Except.ok r) := by
  constructor
  · intro hlt hsig
    constructor
    · simp [scanCD3Aux, hlt, hsig]
    · simp [scanCD2Aux, hlt, hsig]
  · unfold ZipArchive3.parseEntries
    simp only [ZipArchive3.isValid, if_true]
    cases a.entries <;> exact ⟨_, rfl⟩

/-- C5 (witness): mismatching signature right at the scan start. -/
theorem c5_scan_mismatch_policies_witness :
    (0 : Nat) < 1 ∧ readU32LE [] 0 ≠ 0x02014b50 ∧
    scanCD3Aux [] 1 1 0 [] 0 = ([], 0) ∧
    scanCD2Aux [] 1 1 0 [] = Except.error () := by
  have h := (c5_scan_mismatch_policies [] 1 0 0 [] 0
    ⟨[], false, false, 0, 0, none⟩).1 (by decide) (by decide)
  exact ⟨by decide, by decide, h.1, h.2⟩

/-- C5 (counterexample): an archive whose declared central directory starts
with a non-matching signature (ten zero bytes, declared span 10): part_002's
`parseEntries` throws its assertion instead of returning the entries parsed
so far, so the claim fails on that ZIP-variant implementation. -/
theorem c5_parseEntries2_assertion_failure :
    (⟨List.replicate 10 0, 0, 10, none⟩ : ZipArchive2).parseEntries
        = Except.error ZipError.assertion := by
  rfl

/-! ### C2 -/

theorem scanBackAux_finds (buf : List Nat) :
    ∀ (n i0 : Nat), i0 < n →
      byteAt buf i0 = 0x50 → readU32LE buf i0 = 0x06054b50 →
      (∀ j, i0 < j → j < n → readU32LE buf j ≠ 0x06054b50) →
      scanBackAux buf n = some i0 := by
  intro n
  induction n with
  | zero => intro i0 h _ _ _; omega
  | succ n ih =>
    intro i0 hlt hb hsig hnone
    by_cases hi : i0 = n
    · subst hi
      simp only [scanBackAux]
      rw [if_neg (by simp [hb])]
      rw [if_pos hsig]
    · have hlt2 : i0 < n := by omega
      simp only [scanBackAux]
      by_cases hbn : byteAt buf n ≠ 0x50
      · rw [if_pos hbn]
        exact ih i0 hlt2 hb hsig (fun j h1 h2 => hnone j h1 (by omega))
      · rw [if_neg hbn]
        rw [if_neg (hnone n (by omega) (by omega))]
        exact ih i0 hlt2 hb hsig (fun j h1 h2 => hnone j h1 (by omega))

/-- C2: for every archive whose bytes are bytes (`< 256`) and that carries a
true end-of-central-directory record at `e` - full 4-byte little-endian
signature `0x06054B50` at `e` and the fixed 22-byte record plus its
self-declared comment length reaching exactly end of file - and whose bytes
after `e` contain no full 4-byte signature occurrence (incomplete,
lookalike matches such as stray `0x50` bytes inside the trailing comment
are allowed and skipped after their full 4-byte verification fails),
`FindEndHeaderOffset` returns exactly `e`; moreover the returned offset lies
within the last `min(22 + 65535, fileSize)` bytes, at least 22 bytes before
end of file. -/
theorem c2_FindEndHeaderOffset_true_eocd (file : List Nat) (e : Nat)
    (hbytes : ∀ b ∈ file, b < 256)
    (hsig : readU32LE file e = 0x06054b50)
    (hrec : e + 22 + readU16LE file (e + 20) = file.length)
    (hlook : ∀ q, q < file.length → e < q → q + 22 ≤ file.length →
      readU32LE file q ≠ 0x06054b50) :
    FindEndHeaderOffset file = some e ∧
    file.length - min (22 + 0xffff) file.length ≤ e ∧
    e + 22 ≤ file.length := by
  have hcl : readU16LE file (e + 20) < 65536 := by
    have h1 := byteAt_lt_256 file hbytes (e + 20)
    have h2 := byteAt_lt_256 file hbytes (e + 20 + 1)
    unfold readU16LE
    omega
  have hfs : 22 ≤ file.length := by omega
  have hwin1 : file.length - min (22 + 0xffff) file.length ≤ e := by omega
  have hwin2 : e + 22 ≤ file.length := by omega
  have heq : file.length - min (22 + 0xffff) file.length
      + (e - (file.length - min (22 + 0xffff) file.length)) = e := by omega
  have hbb : byteAt (ReadBytes file (file.length - min (22 + 0xffff) file.length)
      (min (22 + 0xffff) file.length))
      (e - (file.length - min (22 + 0xffff) file.length)) = 0x50 := by
    rw [byteAt_ReadBytes file (min (22 + 0xffff) file.length)
      (file.length - min (22 + 0xffff) file.length)
      (e - (file.length - min (22 + 0xffff) file.length)) (by omega)]
    rw [heq]
    exact readU32LE_low_byte file hbytes e hsig
  have hbs : readU32LE (ReadBytes file (file.length - min (22 + 0xffff) file.length)
      (min (22 + 0xffff) file.length))
      (e - (file.length - min (22 + 0xffff) file.length)) = 0x06054b50 := by
    rw [readU32LE_ReadBytes file (file.length - min (22 + 0xffff) file.length)
      (min (22 + 0xffff) file.length)
      (e - (file.length - min (22 + 0xffff) file.length)) (by omega)]
    rw [heq]
    exact hsig
  have hnone : ∀ j, (e - (file.length - min (22 + 0xffff) file.length)) < j →
      j < min (22 + 0xffff) file.length - 22 + 1 →
      readU32LE (ReadBytes file (file.length - min (22 + 0xffff) file.length)
        (min (22 + 0xffff) file.length)) j ≠ 0x06054b50 := by
    intro j h1 h2
    rw [readU32LE_ReadBytes file (file.length - min (22 + 0xffff) file.length)
      (min (22 + 0xffff) file.length) j (by omega)]
    apply hlook
    · omega
    · omega
    · omega
  have hscan := scanBackAux_finds
    (ReadBytes file (file.length - min (22 + 0xffff) file.length)
      (min (22 + 0xffff) file.length))
    (min (22 + 0xffff) file.length - 22 + 1)
    (e - (file.length - min (22 + 0xffff) file.length))
    (by omega) hbb hbs hnone
  refine ⟨?_, hwin1, hwin2⟩
  unfold FindEndHeaderOffset
  rw [if_neg (by omega : ¬ file.length = 0)]
  rw [if_neg (by omega : ¬ min (22 + 0xffff) file.length < 22)]
  rw [hscan]
  show some (file.length - min (22 + 0xffff) file.length
    + (e - (file.length - min (22 + 0xffff) file.length))) = some e
  rw [heq]

/-- C2 (witness): the 22-byte minimal archive - the EOCD record with an
empty comment at offset 0. -/
theorem c2_FindEndHeaderOffset_true_eocd_witness :
    readU32LE ([0x50, 0x4b, 0x05, 0x06] ++ List.replicate 18 0) 0
        = 0x06054b50 ∧
    0 + 22 + readU16LE ([0x50, 0x4b, 0x05, 0x06] ++ List.replicate 18 0) 20
        = ([0x50, 0x4b, 0x05, 0x06] ++ List.replicate 18 0 : List Nat).length ∧
    FindEndHeaderOffset ([0x50, 0x4b, 0x05, 0x06] ++ List.replicate 18 0)
        = some 0 := by
  refine ⟨by decide, by decide, ?_⟩
  exact (c2_FindEndHeaderOffset_true_eocd
    ([0x50, 0x4b, 0x05, 0x06] ++ List.replicate 18 0) 0 (by decide) (by decide)
    (by decide) (by decide)).1

/-! ### C1 -/

theorem mapGet_mem : ∀ (m : DirMap) (k : EntryPath) (v : DirNode),
    mapGet m k = some v → (k, v) ∈ m := by
  intro m k v
  induction m with
  | nil => intro h; simp [mapGet] at h
  | cons kv rest ih =>
    intro h
    simp only [mapGet] at h
    split at h
    · rename_i heq
      injection h with h
      have hkv : kv = (k, v) := by
        cases kv
        simp_all
      rw [← hkv]
      exact List.mem_cons_self kv rest
    · exact List.mem_cons_of_mem _ (ih h)

/-- C1 (amended): with part_003's recursive builder, every ancestor of every
entry path with a nonempty basename is present as a key of the directory
tree, and every such ancestor with a nonempty basename is registered as a
subdirectory of its own parent - with no explicit container record for any
ancestor required; moreover part_003's `parseEntries` turns every key of
the tree into a directory entry of the resulting index.  (part_002's
builder lacks the ancestor recursion: see the counterexample.) -/
theorem c1_createDirectoryTree_ancestors
    (entries : List (EntryPath × Nat)) (p : EntryPath) (sz : Nat)
    (hmem : (p, sz) ∈ entries) (hb : basename p ≠ []) :
    (∀ a ∈ ancestorChain p,
      (∃ v, mapGet (createDirectoryTree entries) a = some v) ∧
      (basename a ≠ [] →
        ∃ v, mapGet (createDirectoryTree entries) (parentOf a) = some v ∧
          basename a ∈ v.subdirectories)) ∧
    (∀ (ar : ZipArchive3) (ent : ZEntries) (st : ZipArchive3) (n : Nat)
        (k : EntryPath) (v : DirNode),
      ar.entries = none → ar.parseEntries = Except.ok (ent, st, n) →
      mapGet (zip3Tree ar) k = some v →
      ∃ d ∈ ent.directories.items, d.fileName = k) := by
  constructor
  · exact foldl_createDirectoryTreeStep_closure entries [] p sz hmem hb
  · intro ar ent st n k v hcache hok hget
    unfold ZipArchive3.parseEntries at hok
    simp only [ZipArchive3.isValid, if_true, hcache] at hok
    simp at hok
    obtain ⟨hent, hst, hn⟩ := hok
    subst hent
    refine ⟨mkZipDirectoryEntry (zip3Tree ar) k, ?_, rfl⟩
    show mkZipDirectoryEntry (zip3Tree ar) k
      ∈ (zip3Tree ar).map (fun kv => mkZipDirectoryEntry (zip3Tree ar) kv.1)
    have hkv := mapGet_mem (zip3Tree ar) k v hget
    exact List.mem_map.mpr ⟨(k, v), hkv, rfl⟩

/-- C1 (witness): the single multi-segment entry `def/vehicle/truck.sii`
with no explicit record for `def` or `def/vehicle`. -/
theorem c1_createDirectoryTree_ancestors_witness :
    ((("def/vehicle/truck.sii".data : EntryPath), 1)
        ∈ ([(("def/vehicle/truck.sii".data : EntryPath), 1)] :
          List (EntryPath × Nat))) ∧
    basename ("def/vehicle/truck.sii".data : EntryPath) ≠ [] ∧
    (∀ a ∈ ancestorChain ("def/vehicle/truck.sii".data : EntryPath),
      (∃ v, mapGet (createDirectoryTree
        [(("def/vehicle/truck.sii".data : EntryPath), 1)]) a = some v) ∧
      (basename a ≠ [] →
        ∃ v, mapGet (createDirectoryTree
            [(("def/vehicle/truck.sii".data : EntryPath), 1)]) (parentOf a)
          = some v ∧ basename a ∈ v.subdirectories)) := by
  refine ⟨List.mem_singleton.mpr rfl, by decide, ?_⟩
  exact (c1_createDirectoryTree_ancestors
    [(("def/vehicle/truck.sii".data : EntryPath), 1)]
    ("def/vehicle/truck.sii".data : EntryPath) 1
    (List.mem_singleton.mpr rfl) (by decide)).1

/-- C1 (counterexample): part_002's builder, fed the single entry
`a/b/c.txt`, produces a tree whose only key is the immediate parent `a/b`:
the ancestor `a` - an element of the path's ancestor chain - has no node at
all, so with that ZIP variant not every ancestor directory is present. -/
theorem c1_createDirectoryTreeV2_missing_ancestor :
    (("a".data : EntryPath) ∈ ancestorChain ("a/b/c.txt".data : EntryPath)) ∧
    mapGet (createDirectoryTreeV2 [(("a/b/c.txt".data : EntryPath), 1)])
        ("a".data : EntryPath) = none := by
  decide
